import Mathlib

/-!
Verification development for the repository `tdesveaux/misc`.

Two source programs are shallowly embedded:

* `lfs_finder.py` — the large-file-reference auditor: its per-(pointer, remote)
  probe state machine (the module-level `try/except KeyboardInterrupt/finally`
  loop), the `get_commits` history lookup with its per-name revision cache, the
  presence cache (`ok_lfs_cache`) and the missing-reference report
  (`commits_missing_lfs`).
* `all-git.py` — the batch fetch runner: the `_task` retry policy, the
  reporting loop with its failure block and stderr anomaly heuristic, and the
  `enumerate_git` repository enumerator.

External effects are modelled explicitly: git subprocess output is an oracle
(`GitRepo`), HTTP responses are an oracle returning `Except` (an `error`
models a raised `requests` exception), the filesystem walked by
`Path().rglob` is a finite list of (path, is-directory) entries, and Python's
`try/except/finally` exits are an explicit `ExitKind`.
-/

set_option autoImplicit false

namespace Misc

/-- Association-list lookup with decidable key equality.  Python `dict`
lookups (`d.get(k)`, `d[k]`) are modelled with this function over insertion-
ordered association lists. -/
def alookup {α β : Type} [DecidableEq α] : List (α × β) → α → Option β
  | [], _ => none
  | (k, v) :: rest, a => if a = k then some v else alookup rest a

/-- Python `d.setdefault(k, dflt)` followed by an in-place mutation `f` of the
returned value: if `k` is present, its value is modified by `f`; otherwise the
pair `(k, f dflt)` is appended at the end (Python dicts preserve insertion
order and `setdefault` inserts new keys at the end). -/
def setdefaultMod {α β : Type} [DecidableEq α] (m : List (α × β)) (k : α) (dflt : β)
    (f : β → β) : List (α × β) :=
  match m with
  | [] => [(k, f dflt)]
  | (k', v) :: rest =>
    if k = k' then (k', f v) :: rest else (k', v) :: setdefaultMod rest k dflt f

theorem alookup_setdefaultMod_self {α β : Type} [DecidableEq α]
    (m : List (α × β)) (k : α) (dflt : β) (f : β → β) :
    alookup (setdefaultMod m k dflt f) k = some (f ((alookup m k).getD dflt)) := by
  induction m with
  | nil => simp [setdefaultMod, alookup]
  | cons hd tl ih =>
    obtain ⟨k', v⟩ := hd
    by_cases hk : k = k'
    · subst hk
      simp [setdefaultMod, alookup]
    · simp [setdefaultMod, alookup, hk, ih]

theorem alookup_setdefaultMod_other {α β : Type} [DecidableEq α]
    (m : List (α × β)) (k k' : α) (dflt : β) (f : β → β) (hne : k' ≠ k) :
    alookup (setdefaultMod m k dflt f) k' = alookup m k' := by
  induction m with
  | nil => simp [setdefaultMod, alookup, hne]
  | cons hd tl ih =>
    obtain ⟨k₀, v⟩ := hd
    by_cases hk : k = k₀
    · subst hk
      simp [setdefaultMod, alookup, hne]
    · by_cases hk' : k' = k₀
      · subst hk'
        simp [setdefaultMod, alookup, hk]
      · simp [setdefaultMod, alookup, hk, hk', ih]

/-! ## `lfs_finder.py`: data model -/

/-- One entry of `git lfs ls-files --all --json`, the `LfsPointer` dataclass of
`lfs_finder.py`. -/
structure LfsPointer where
  name : String
  oid_type : String
  oid : String
  size : Nat
deriving DecidableEq, Repr

/-- The `grep_expr` property of `LfsPointer`: the fixed string
`oid <oid_type>:<oid>` searched for in file contents. -/
def LfsPointer.grep_expr (p : LfsPointer) : String :=
  "oid " ++ p.oid_type ++ ":" ++ p.oid

/-- One configured remote as resolved by `_get_remote_info`: name, URL
(normalised to end in `.git`), and optional basic-auth credentials. -/
structure Remote where
  name : String
  url : String
  auth : Option (String × String)
deriving DecidableEq, Repr

/-- Oracle for the git subprocess calls made by `get_commits`:
`revList n` is the line list of `git rev-list --all -- n`, and
`grepOut expr revs n` is the line list of
`git grep --text --fixed-strings expr *revs -- n`. -/
structure GitRepo where
  revList : String → List String
  grepOut : String → List String → String → List String

/-- Python `line.split(":", 1)[0]`: the prefix of `line` before the first
colon (the whole line when there is none). -/
def splitColonFirst (line : String) : String :=
  String.mk (line.toList.takeWhile (fun c => c ≠ ':'))

/-- `get_commits` of `lfs_finder.py`, with the module-level `_file_revs_cache`
threaded explicitly: the revision list for `ptr.name` is taken from the cache
when present, otherwise computed by `git rev-list` and appended to the cache;
the commits are the first colon-separated fields of the `git grep` output over
those revisions.  Returns (commits, updated revision cache). -/
def get_commits (git : GitRepo) (revsCache : List (String × List String))
    (ptr : LfsPointer) : List String × List (String × List String) :=
  match alookup revsCache ptr.name with
  | some revs =>
    ((git.grepOut ptr.grep_expr revs ptr.name).map splitColonFirst, revsCache)
  | none =>
    let revs := git.revList ptr.name
    ((git.grepOut ptr.grep_expr revs ptr.name).map splitColonFirst,
      revsCache ++ [(ptr.name, revs)])

/-- The set of hashes recorded present for a remote name:
Python `ok_lfs_cache.get(remote, set())`. -/
def cacheGet (cache : List (String × List String)) (remote : String) : List String :=
  (alookup cache remote).getD []

/-- Python `ok_lfs_cache.setdefault(remote, set()).add(oid)`: set-insert `oid`
into the entry for `remote`, creating the entry if absent. -/
def cacheAdd (cache : List (String × List String)) (remote : String) (oid : String) :
    List (String × List String) :=
  setdefaultMod cache remote [] (fun s => if oid ∈ s then s else s ++ [oid])

/-- The missing-reference report `commits_missing_lfs`: commit hash ↦
(pointer ↦ list of remote names on which it was confirmed missing). -/
def Report : Type := List (String × List (LfsPointer × List String))

instance : DecidableEq Report := by
  unfold Report
  infer_instance

/-- Python `commits_missing_lfs.setdefault(commit, {}).setdefault(ptr, []).append(remote)`. -/
def reportAdd (rep : Report) (commit : String) (ptr : LfsPointer) (remote : String) :
    Report :=
  setdefaultMod rep commit []
    (fun m => setdefaultMod m ptr [] (fun l => l ++ [remote]))

/-- The remotes recorded missing for `(commit, ptr)` in the report. -/
def reportRemotes (rep : Report) (commit : String) (ptr : LfsPointer) : List String :=
  (alookup ((alookup rep commit).getD []) ptr).getD []

/-- The mutable state of the auditor's probe loop: the presence cache
`ok_lfs_cache`, the missing-reference report `commits_missing_lfs`, and the
`_file_revs_cache` used by `get_commits`. -/
structure AuditState where
  okCache : List (String × List String)
  report : Report
  revsCache : List (String × List String)
deriving DecidableEq

/-- The `status_code != 200` branch of the probe loop (lines 162–170 of
`lfs_finder.py`): for each commit returned by `get_commits`, append the remote
name under `(commit, ptr)` in the missing-reference report; the revision cache
is updated by `get_commits`, the presence cache is untouched. -/
def missingUpdate (git : GitRepo) (s : AuditState) (ptr : LfsPointer) (r : Remote) :
    AuditState :=
  let gc := get_commits git s.revsCache ptr
  { s with
    report := gc.1.foldl (fun rep c => reportAdd rep c ptr r.name) s.report
    revsCache := gc.2 }

/-- The response dispatch of the probe loop body (lines 162–174 of
`lfs_finder.py`), translated branch for branch:

* `if response.status_code != 200:` → missing-report branch,
* `elif response.status_code != 404:` → add the hash to the presence cache,
* `else: response.raise_for_status()` → a raised exception, modelled as
  `Except.error ()`. -/
def probeStep (git : GitRepo) (s : AuditState) (ptr : LfsPointer) (r : Remote)
    (status : Nat) : Except Unit AuditState :=
  if status ≠ 200 then
    Except.ok (missingUpdate git s ptr r)
  else if status ≠ 404 then
    Except.ok { s with okCache := cacheAdd s.okCache r.name ptr.oid }
  else
    Except.error ()

/-- How the probe loop exits: normally, by `KeyboardInterrupt` (operator
cancel), or by any other raised Python exception. -/
inductive ExitKind where
  | normal
  | kbInterrupt
  | pyError
deriving DecidableEq, Repr

/-- Result of running the probe loop: final state, the list of (pointer,
remote) pairs for which a verification request was actually sent, and how the
loop exited. -/
structure LoopOutcome where
  state : AuditState
  probed : List (LfsPointer × Remote)
  exit : ExitKind
deriving DecidableEq

/-- The auditor's probe loop over the flattened (pointer, remote) iteration
(lines 145–174 of `lfs_finder.py`).  `resp ptr r` is the HTTP oracle: `ok s`
is a response with status code `s`, `error ()` a raised network/timeout
exception.  `kb = some k` models a `KeyboardInterrupt` delivered at the
boundary just before the `k`-th pair is processed; `none` means no interrupt.
A pair whose hash is already in the presence cache for its remote is skipped
without sending a request (`continue`). -/
def probeLoop (git : GitRepo) (resp : LfsPointer → Remote → Except Unit Nat) :
    Option Nat → List (LfsPointer × Remote) → AuditState → LoopOutcome
  | _, [], s => ⟨s, [], ExitKind.normal⟩
  | kb, (ptr, r) :: rest, s =>
    if kb = some 0 then ⟨s, [], ExitKind.kbInterrupt⟩
    else if ptr.oid ∈ cacheGet s.okCache r.name then
      probeLoop git resp (kb.map (fun n => n - 1)) rest s
    else
      match resp ptr r with
      | Except.error _ => ⟨s, [(ptr, r)], ExitKind.pyError⟩
      | Except.ok status =>
        match probeStep git s ptr r status with
        | Except.error _ => ⟨s, [(ptr, r)], ExitKind.pyError⟩
        | Except.ok s1 =>
          let o := probeLoop git resp (kb.map (fun n => n - 1)) rest s1
          ⟨o.state, (ptr, r) :: o.probed, o.exit⟩

/-- The `except KeyboardInterrupt: pass` handler: a `KeyboardInterrupt` is
swallowed, every other exit kind passes through. -/
def exceptKB (e : ExitKind) : ExitKind :=
  if e = ExitKind.kbInterrupt then ExitKind.normal else e

/-- Result of the whole `try/except/finally` statement: the in-memory state,
the requests issued, what the `finally` block wrote to the cache file
(`none` would mean the dump never ran), and whether an exception propagates
out of the statement. -/
structure AuditRun where
  state : AuditState
  probed : List (LfsPointer × Remote)
  disk : Option (List (String × List String))
  raised : Bool
deriving DecidableEq

/-- Lines 142–181 of `lfs_finder.py`: run the probe loop under
`try … except KeyboardInterrupt: pass finally: json.dump(ok_lfs_cache)`.
The `finally` block executes on every exit path, so the dump always runs on
the loop's final in-memory cache; after it, a still-pending non-interrupt
exception propagates. -/
def runAudit (git : GitRepo) (resp : LfsPointer → Remote → Except Unit Nat)
    (kb : Option Nat) (pairs : List (LfsPointer × Remote)) (s0 : AuditState) :
    AuditRun :=
  let out := probeLoop git resp kb pairs s0
  let exit := exceptKB out.exit
  { state := out.state
    probed := out.probed
    disk := some out.state.okCache
    raised := decide (exit ≠ ExitKind.normal) }

/-! ## `all-git.py`: fetch runner and repository enumerator -/

/-- Result of one `git fetch --all --prune --tags` attempt: exit status and
captured streams, as returned by `_fetch` in `all-git.py`. -/
structure FetchResult where
  returncode : Int
  stdout : String
  stderr : String
deriving DecidableEq, Repr

/-- `_task` of `all-git.py`: run the fetch; if the exit status is non-zero run
it exactly once more and return that second result, otherwise return the
first.  `f n` is the oracle giving the result of attempt number `n`. -/
def task (f : Nat → FetchResult) : FetchResult :=
  let r := f 0
  if r.returncode ≠ 0 then f 1 else r

/-- The number of fetch attempts `_task` makes: `2` exactly when the first
attempt's exit status is non-zero, else `1`. -/
def taskAttempts (f : Nat → FetchResult) : Nat :=
  if (f 0).returncode ≠ 0 then 2 else 1

/-- Python `str.splitlines()` restricted to `\n` separators, over the
character list. -/
def pySplitlinesChars : List Char → List (List Char)
  | [] => []
  | c :: cs =>
    if c = '\n' then [] :: pySplitlinesChars cs
    else
      match pySplitlinesChars cs with
      | [] => [[c]]
      | l :: ls => (c :: l) :: ls

/-- Python `stderr.splitlines(keepends=False)` (with `\n` line separators):
no trailing empty line for a trailing newline, and `"".splitlines() == []`. -/
def pySplitlines (s : String) : List String :=
  (pySplitlinesChars s.toList).map String.mk

/-- Helper for `pySplit`: accumulate the current (reversed) token while
scanning; whitespace ends a token, empty tokens are discarded. -/
def pySplitAux : List Char → List Char → List (List Char)
  | cur, [] => if cur = [] then [] else [cur.reverse]
  | cur, c :: cs =>
    if c.isWhitespace then
      if cur = [] then pySplitAux [] cs else cur.reverse :: pySplitAux [] cs
    else pySplitAux (c :: cur) cs

/-- Python `str.split()` with no argument: split on runs of whitespace,
discarding empty tokens (so `"".split() == []` and `"  ".split() == []`). -/
def pySplit (s : String) : List String :=
  (pySplitAux [] s.toList).map String.mk

/-- Line 89 of `all-git.py`:
`any(e.split()[0] != "Fetching" for e in stderr.splitlines(keepends=False))`.
`any` over a generator is lazy: it stops at the first line whose first token
differs from `"Fetching"`; on a line with no tokens (empty or whitespace-only)
the subscript `[0]` raises `IndexError`, modelled as `Except.error ()`. -/
def stderrAnomalous : List String → Except Unit Bool
  | [] => Except.ok false
  | e :: rest =>
    match (pySplit e).head? with
    | none => Except.error ()
    | some t => if t ≠ "Fetching" then Except.ok true else stderrAnomalous rest

/-- One observable print of the fetch reporting loop (lines 76–93 of
`all-git.py`): the per-repository banner, the failure diagnostic block, or the
anomalous-stderr dump. -/
inductive OutEvent where
  | banner (repo : String)
  | failBlock (repo : String) (returncode : Int) (stdout stderr : String)
  | anomaly (stderr : String)
deriving DecidableEq, Repr

/-- The fetch reporting loop (lines 76–93 of `all-git.py`) over the completed
units, in enumeration order.  Per repository: print the banner; if the final
exit status is non-zero print one failure block; then run the stderr anomaly
inspection — if it raises (`IndexError` on a token-less line) the exception
propagates and the batch aborts (second component `true`), otherwise print the
stderr blob when anomalous and continue with the remaining repositories. -/
def reportLoop : List (String × FetchResult) → List OutEvent × Bool
  | [] => ([], false)
  | (repo, res) :: rest =>
    let fails : List OutEvent :=
      if res.returncode ≠ 0 then
        [OutEvent.failBlock repo res.returncode res.stdout res.stderr]
      else []
    match stderrAnomalous (pySplitlines res.stderr) with
    | Except.error _ => (OutEvent.banner repo :: fails, true)
    | Except.ok b =>
      let anom : List OutEvent := if b then [OutEvent.anomaly res.stderr] else []
      let o := reportLoop rest
      (OutEvent.banner repo :: (fails ++ anom ++ o.1), o.2)

/-- The whole `fetch` command pipeline: run `_task` for every repository (the
per-repository, per-attempt results given by the oracle `f`) and report the
units in enumeration order. -/
def fetchRun (repos : List String) (f : String → Nat → FetchResult) :
    List OutEvent × Bool :=
  reportLoop (repos.map (fun repo => (repo, task (f repo))))

/-- A reference yielded by `enumerate_git`: the working directory itself as an
absolute path, or a subdirectory as a path relative to the working
directory (a non-empty component list). -/
inductive RepoRef where
  | absRoot
  | rel (p : List String)
deriving DecidableEq, Repr

/-- The filesystem below the working directory, as walked by
`Path().rglob(".git")`: a finite list of entries, each a non-empty relative
path (component list) together with whether it is a directory. -/
abbrev FileSys : Type := List (List String × Bool)

/-- `cwd.rglob(".git")`: every entry of the tree whose final path component is
`.git`, in walk order. -/
def rglobGit (fs : FileSys) : List (List String × Bool) :=
  fs.filter (fun e => e.1.getLast? = some ".git")

/-- `enumerate_git` of `all-git.py` (lines 36–43): for each walked `.git`
match that is a directory, yield its parent — as an absolute path when the
parent is the working directory itself, as a relative path otherwise. -/
def enumerate_git (fs : FileSys) : List RepoRef :=
  (rglobGit fs).filterMap (fun e =>
    if e.2 then
      some (if e.1.dropLast = [] then RepoRef.absRoot else RepoRef.rel e.1.dropLast)
    else none)

/-! ## Helper lemmas -/

theorem alookup_append_right_none {α β : Type} [DecidableEq α]
    (m : List (α × β)) (k : α) (v : β) (h : alookup m k = none) :
    alookup (m ++ [(k, v)]) k = some v := by
  induction m with
  | nil => simp [alookup]
  | cons hd tl ih =>
    obtain ⟨k₀, v₀⟩ := hd
    by_cases hk : k = k₀
    · simp [alookup, hk] at h
    · simp only [alookup, hk, if_false, List.cons_append] at h ⊢
      exact ih h

theorem mem_cacheGet_cacheAdd_self (c : List (String × List String))
    (r oid : String) : oid ∈ cacheGet (cacheAdd c r oid) r := by
  unfold cacheGet cacheAdd
  rw [alookup_setdefaultMod_self]
  simp only [Option.getD_some]
  by_cases h : oid ∈ (alookup c r).getD []
  · simp [h]
  · simp [h]

theorem cacheAdd_mono (c : List (String × List String)) (r oid r' o' : String)
    (h : o' ∈ cacheGet c r') : o' ∈ cacheGet (cacheAdd c r oid) r' := by
  unfold cacheGet at h
  unfold cacheGet cacheAdd
  by_cases hr : r' = r
  · subst hr
    rw [alookup_setdefaultMod_self]
    simp only [Option.getD_some]
    by_cases hmem : oid ∈ (alookup c r').getD []
    · simp only [hmem, if_true]
      exact h
    · simp only [hmem, if_false]
      exact List.mem_append_left _ h
  · rw [alookup_setdefaultMod_other _ _ _ _ _ hr]
    exact h

theorem get_commits_idem (git : GitRepo) (rc : List (String × List String))
    (ptr : LfsPointer) :
    get_commits git (get_commits git rc ptr).2 ptr = get_commits git rc ptr := by
  unfold get_commits
  cases h : alookup rc ptr.name with
  | some revs => simp [h]
  | none =>
    simp only [h]
    rw [alookup_append_right_none _ _ _ h]

theorem reportRemotes_reportAdd_self (rep : Report) (c : String)
    (ptr : LfsPointer) (rn : String) :
    reportRemotes (reportAdd rep c ptr rn) c ptr = reportRemotes rep c ptr ++ [rn] := by
  unfold reportRemotes reportAdd
  rw [alookup_setdefaultMod_self]
  simp only [Option.getD_some]
  rw [alookup_setdefaultMod_self]
  simp only [Option.getD_some]

theorem reportRemotes_reportAdd_mono (rep : Report) (c c' : String)
    (ptr ptr' : LfsPointer) (rn x : String)
    (h : x ∈ reportRemotes rep c' ptr') :
    x ∈ reportRemotes (reportAdd rep c ptr rn) c' ptr' := by
  unfold reportRemotes at h
  unfold reportRemotes reportAdd
  by_cases hc : c' = c
  · subst hc
    rw [alookup_setdefaultMod_self]
    simp only [Option.getD_some]
    by_cases hp : ptr' = ptr
    · subst hp
      rw [alookup_setdefaultMod_self]
      simp only [Option.getD_some]
      exact List.mem_append_left _ h
    · rw [alookup_setdefaultMod_other _ _ _ _ _ hp]
      exact h
  · rw [alookup_setdefaultMod_other _ _ _ _ _ hc]
    exact h

theorem mem_reportRemotes_foldl_mono (cs : List String) (rep : Report)
    (ptr : LfsPointer) (rn : String) (c' : String) (ptr' : LfsPointer) (x : String)
    (h : x ∈ reportRemotes rep c' ptr') :
    x ∈ reportRemotes (cs.foldl (fun r c => reportAdd r c ptr rn) rep) c' ptr' := by
  induction cs generalizing rep with
  | nil => exact h
  | cons hd tl ih =>
    exact ih _ (reportRemotes_reportAdd_mono _ _ _ _ _ _ _ h)

theorem mem_reportRemotes_foldl (cs : List String) (rep : Report)
    (ptr : LfsPointer) (rn : String) (c : String) (hc : c ∈ cs) :
    rn ∈ reportRemotes (cs.foldl (fun r x => reportAdd r x ptr rn) rep) c ptr := by
  induction cs generalizing rep with
  | nil => cases hc
  | cons hd tl ih =>
    simp only [List.foldl_cons]
    rcases List.mem_cons.mp hc with heq | hmem
    · subst heq
      apply mem_reportRemotes_foldl_mono
      rw [reportRemotes_reportAdd_self]
      exact List.mem_append_right _ (List.mem_singleton.mpr rfl)
    · exact ih _ hmem

theorem probeStep_ne_error (git : GitRepo) (s : AuditState) (ptr : LfsPointer)
    (r : Remote) (status : Nat) (e : Unit) :
    probeStep git s ptr r status ≠ Except.error e := by
  unfold probeStep
  by_cases h200 : status = 200
  · subst h200
    simp
  · simp [h200]

theorem probeStep_okCache_mono (git : GitRepo) (s s1 : AuditState)
    (ptr : LfsPointer) (r : Remote) (status : Nat) (r' o' : String)
    (hstep : probeStep git s ptr r status = Except.ok s1)
    (h : o' ∈ cacheGet s.okCache r') : o' ∈ cacheGet s1.okCache r' := by
  unfold probeStep at hstep
  by_cases h200 : status = 200
  · subst h200
    simp only [ne_eq, not_true_eq_false, if_false, reduceIte] at hstep
    cases hstep
    exact cacheAdd_mono _ _ _ _ _ h
  · simp only [ne_eq, h200, not_false_eq_true, if_true, reduceIte] at hstep
    cases hstep
    exact h

theorem probeStep_200 (git : GitRepo) (s : AuditState) (ptr : LfsPointer)
    (r : Remote) :
    probeStep git s ptr r 200 =
      Except.ok { s with okCache := cacheAdd s.okCache r.name ptr.oid } := by
  simp [probeStep]

theorem probeLoop_cache_mono (git : GitRepo)
    (resp : LfsPointer → Remote → Except Unit Nat) (kb : Option Nat)
    (pairs : List (LfsPointer × Remote)) (s : AuditState) (r' o' : String)
    (h : o' ∈ cacheGet s.okCache r') :
    o' ∈ cacheGet (probeLoop git resp kb pairs s).state.okCache r' := by
  induction pairs generalizing kb s with
  | nil => simpa [probeLoop] using h
  | cons hd tl ih =>
    obtain ⟨ptr, r⟩ := hd
    by_cases hkb : kb = some 0
    · simpa [probeLoop, hkb] using h
    · by_cases hhit : ptr.oid ∈ cacheGet s.okCache r.name
      · simpa [probeLoop, hkb, hhit] using ih (kb.map (fun n => n - 1)) s h
      · cases hresp : resp ptr r with
        | error e => simpa [probeLoop, hkb, hhit, hresp] using h
        | ok status =>
          cases hstep : probeStep git s ptr r status with
          | error e => exact absurd hstep (probeStep_ne_error git s ptr r status e)
          | ok s1 =>
            have hmono := probeStep_okCache_mono git s s1 ptr r status r' o' hstep h
            simpa [probeLoop, hkb, hhit, hresp, hstep] using
              ih (kb.map (fun n => n - 1)) s1 hmono

theorem probeLoop_probed_200_cached (git : GitRepo)
    (resp : LfsPointer → Remote → Except Unit Nat) (kb : Option Nat)
    (pairs : List (LfsPointer × Remote)) (s : AuditState)
    (p : LfsPointer × Remote) (hp : p ∈ (probeLoop git resp kb pairs s).probed)
    (h200 : resp p.1 p.2 = Except.ok 200) :
    p.1.oid ∈ cacheGet (probeLoop git resp kb pairs s).state.okCache p.2.name := by
  induction pairs generalizing kb s with
  | nil => simp [probeLoop] at hp
  | cons hd tl ih =>
    obtain ⟨ptr, r⟩ := hd
    by_cases hkb : kb = some 0
    · simp [probeLoop, hkb] at hp
    · by_cases hhit : ptr.oid ∈ cacheGet s.okCache r.name
      · simp only [probeLoop, hkb, if_false, hhit, if_true, reduceIte] at hp ⊢
        exact ih _ _ hp
      · cases hresp : resp ptr r with
        | error e =>
          simp only [probeLoop, hkb, if_false, hhit, hresp, reduceIte,
            List.mem_singleton] at hp ⊢
          subst hp
          rw [hresp] at h200
          cases h200
        | ok status =>
          cases hstep : probeStep git s ptr r status with
          | error e => exact absurd hstep (probeStep_ne_error git s ptr r status e)
          | ok s1 =>
            simp only [probeLoop, hkb, if_false, hhit, hresp, hstep, reduceIte,
              List.mem_cons] at hp ⊢
            rcases hp with hph | hpt
            · subst hph
              rw [hresp] at h200
              cases h200
              rw [probeStep_200] at hstep
              cases hstep
              exact probeLoop_cache_mono git resp _ tl _ _ _
                (mem_cacheGet_cacheAdd_self s.okCache r.name ptr.oid)
            · exact ih _ _ hpt

theorem probeLoop_probed_not_cached (git : GitRepo)
    (resp : LfsPointer → Remote → Except Unit Nat) (kb : Option Nat)
    (pairs : List (LfsPointer × Remote)) (s : AuditState)
    (p : LfsPointer × Remote) (hp : p ∈ (probeLoop git resp kb pairs s).probed) :
    p.1.oid ∉ cacheGet s.okCache p.2.name := by
  induction pairs generalizing kb s with
  | nil => simp [probeLoop] at hp
  | cons hd tl ih =>
    obtain ⟨ptr, r⟩ := hd
    by_cases hkb : kb = some 0
    · simp [probeLoop, hkb] at hp
    · by_cases hhit : ptr.oid ∈ cacheGet s.okCache r.name
      · simp only [probeLoop, hkb, if_false, hhit, if_true, reduceIte] at hp
        exact ih _ _ hp
      · cases hresp : resp ptr r with
        | error e =>
          simp only [probeLoop, hkb, if_false, hhit, hresp, reduceIte,
            List.mem_singleton] at hp
          subst hp
          exact hhit
        | ok status =>
          cases hstep : probeStep git s ptr r status with
          | error e => exact absurd hstep (probeStep_ne_error git s ptr r status e)
          | ok s1 =>
            simp only [probeLoop, hkb, if_false, hhit, hresp, hstep, reduceIte,
              List.mem_cons] at hp
            rcases hp with hph | hpt
            · subst hph
              exact hhit
            · intro hmem
              exact ih _ _ hpt (probeStep_okCache_mono git s s1 ptr r status _ _ hstep hmem)

theorem probeLoop_probed_le (git : GitRepo)
    (resp : LfsPointer → Remote → Except Unit Nat) (k : Nat)
    (pairs : List (LfsPointer × Remote)) (s : AuditState) :
    (probeLoop git resp (some k) pairs s).probed.length ≤ k := by
  induction pairs generalizing k s with
  | nil => simp [probeLoop]
  | cons hd tl ih =>
    obtain ⟨ptr, r⟩ := hd
    by_cases hk : k = 0
    · subst hk
      simp [probeLoop]
    · have hkb : (some k : Option Nat) ≠ some 0 := by simpa using hk
      have hk1 : 1 ≤ k := Nat.one_le_iff_ne_zero.mpr hk
      by_cases hhit : ptr.oid ∈ cacheGet s.okCache r.name
      · simp only [probeLoop, hkb, if_false, hhit, if_true, reduceIte, Option.map_some]
        exact le_trans (ih (k - 1) s) (Nat.sub_le k 1)
      · cases hresp : resp ptr r with
        | error e =>
          simp only [probeLoop, hkb, if_false, hhit, hresp, reduceIte, List.length_singleton]
          exact hk1
        | ok status =>
          cases hstep : probeStep git s ptr r status with
          | error e => exact absurd hstep (probeStep_ne_error git s ptr r status e)
          | ok s1 =>
            simp only [probeLoop, hkb, if_false, hhit, hresp, hstep, reduceIte,
              Option.map_some, List.length_cons]
            have hih : (probeLoop git resp (Option.map (fun n => n - 1) (some k))
                tl s1).probed.length ≤ k - 1 := ih (k - 1) s1
            omega

/-- The per-entry action of `enumerate_git`, with the `.git`-name test of
`rglob` fused in: `some ref` exactly when the entry is a directory named
`.git`, in which case `ref` is its parent. -/
def enumKey (e : List String × Bool) : Option RepoRef :=
  if e.1.getLast? = some ".git" then
    if e.2 then
      some (if e.1.dropLast = [] then RepoRef.absRoot else RepoRef.rel e.1.dropLast)
    else none
  else none

theorem enumerate_git_eq_filterMap (fs : FileSys) :
    enumerate_git fs = fs.filterMap enumKey := by
  unfold enumerate_git rglobGit
  induction fs with
  | nil => rfl
  | cons e fs ih =>
    by_cases hg : e.1.getLast? = some ".git"
    · by_cases hd : e.2
      · simp [List.filter_cons, List.filterMap_cons, enumKey, hg, hd, ih]
      · simp [List.filter_cons, List.filterMap_cons, enumKey, hg, hd, ih]
    · simp [List.filter_cons, List.filterMap_cons, enumKey, hg, ih]

theorem enumKey_inj (e e' : List String × Bool) (ref : RepoRef)
    (h : enumKey e = some ref) (h' : enumKey e' = some ref) : e = e' := by
  unfold enumKey at h h'
  by_cases hg : e.1.getLast? = some ".git"
  · by_cases hg' : e'.1.getLast? = some ".git"
    · simp only [hg, if_true] at h
      simp only [hg', if_true] at h'
      by_cases hd : e.2
      · by_cases hd' : e'.2
        · simp only [hd, if_true, Option.some_inj] at h
          simp only [hd', if_true, Option.some_inj] at h'
          have he : e.1.dropLast ++ [".git"] = e.1 :=
            List.dropLast_append_getLast? ".git" hg
          have he' : e'.1.dropLast ++ [".git"] = e'.1 :=
            List.dropLast_append_getLast? ".git" hg'
          have hfst : e.1 = e'.1 := by
            by_cases hnil : e.1.dropLast = []
            · by_cases hnil' : e'.1.dropLast = []
              · rw [← he, ← he', hnil, hnil']
              · rw [if_pos hnil] at h
                rw [if_neg hnil'] at h'
                rw [← h'] at h
                cases h
            · by_cases hnil' : e'.1.dropLast = []
              · rw [if_neg hnil] at h
                rw [if_pos hnil'] at h'
                rw [← h'] at h
                cases h
              · rw [if_neg hnil] at h
                rw [if_neg hnil'] at h'
                rw [← h'] at h
                injection h with hq
                rw [← he, ← he', hq]
          have hsnd : e.2 = e'.2 := by rw [hd, hd']
          exact Prod.ext hfst hsnd
        · simp [hd'] at h'
      · simp [hd] at h
    · simp [hg'] at h'
  · simp [hg] at h

theorem probeLoop_probed_subset (git : GitRepo)
    (resp : LfsPointer → Remote → Except Unit Nat) (kb : Option Nat)
    (pairs : List (LfsPointer × Remote)) (s : AuditState)
    (p : LfsPointer × Remote) (hp : p ∈ (probeLoop git resp kb pairs s).probed) :
    p ∈ pairs := by
  induction pairs generalizing kb s with
  | nil => simp [probeLoop] at hp
  | cons hd tl ih =>
    obtain ⟨ptr, r⟩ := hd
    by_cases hkb : kb = some 0
    · simp [probeLoop, hkb] at hp
    · by_cases hhit : ptr.oid ∈ cacheGet s.okCache r.name
      · simp only [probeLoop, hkb, if_false, hhit, if_true, reduceIte] at hp
        exact List.mem_cons_of_mem _ (ih _ _ hp)
      · cases hresp : resp ptr r with
        | error e =>
          simp only [probeLoop, hkb, if_false, hhit, hresp, reduceIte,
            List.mem_singleton] at hp
          simp [hp]
        | ok status =>
          cases hstep : probeStep git s ptr r status with
          | error e => exact absurd hstep (probeStep_ne_error git s ptr r status e)
          | ok s1 =>
            simp only [probeLoop, hkb, if_false, hhit, hresp, hstep, reduceIte,
              List.mem_cons] at hp
            rcases hp with hph | hpt
            · simp [hph]
            · exact List.mem_cons_of_mem _ (ih _ _ hpt)

/-! ## Concrete inputs used by witnesses and counterexamples

These model the spec's scenario pointer `{name: "big.bin", oid_type: "sha256",
oid: "abc123", size: 42}` probed against a single remote `origin`, in a
repository where commit `c1` references the pointer. -/

/-- The scenario pointer. -/
def ptr0 : LfsPointer := ⟨"big.bin", "sha256", "abc123", 42⟩

/-- The scenario remote `origin`. -/
def origin0 : Remote := ⟨"origin", "https://example.test/repo.git", none⟩

/-- A git oracle in which `big.bin` has one referencing commit `c1`. -/
def git0 : GitRepo :=
  ⟨fun _ => ["c1"], fun expr _ name => ["c1:" ++ name ++ ":" ++ expr]⟩

/-- Probe-loop state with empty cache, report and revision cache. -/
def emptyAudit : AuditState := ⟨[], [], []⟩

/-- Probe-loop state whose presence cache already records `abc123` for
`origin`. -/
def cachedAudit : AuditState := ⟨[("origin", ["abc123"])], [], []⟩

/-- HTTP oracle: every verification request returns status 200. -/
def resp200 : LfsPointer → Remote → Except Unit Nat := fun _ _ => Except.ok 200

/-- HTTP oracle: every verification request raises (network/timeout error). -/
def respErr : LfsPointer → Remote → Except Unit Nat := fun _ _ => Except.error ()

/-! ## Claims -/

/-- C10: in the auditor's probe loop, the final `else` branch calling
`response.raise_for_status()` is unreachable for every HTTP status code —
`probeStep` never returns an error — and every non-200 status (404 included)
takes the missing-report branch. -/
theorem c10_raise_branch_unreachable :
    ∀ (git : GitRepo) (s : AuditState) (ptr : LfsPointer) (r : Remote) (status : Nat),
      (∀ e : Unit, probeStep git s ptr r status ≠ Except.error e)
      ∧ (status ≠ 200 →
          probeStep git s ptr r status = Except.ok (missingUpdate git s ptr r)) := by
  intro git s ptr r status
  refine ⟨fun e => probeStep_ne_error git s ptr r status e, fun h => ?_⟩
  simp [probeStep, h]

/-- Witness for C10 at status 404: the probe takes the missing-report branch
and does not raise. -/
theorem c10_witness :
    probeStep git0 emptyAudit ptr0 origin0 404 =
      Except.ok (missingUpdate git0 emptyAudit ptr0 origin0) :=
  (c10_raise_branch_unreachable git0 emptyAudit ptr0 origin0 404).2 (by decide)

/-- C1 (code bug): the claim says HTTP 404 raises a hard error and records
nothing, but evaluating the probe body at status 404 shows it takes the
`status_code != 200` branch: the pair (pointer → origin) is appended under the
referencing commit `c1` in the missing-reference report and no exception is
raised.  The dead `raise_for_status` branch shows the claim matches the
author's intent; the inverted comparisons are the slip. -/
theorem c1_http404_recorded_missing_not_raised :
    probeStep git0 emptyAudit ptr0 origin0 404 =
      Except.ok
        { okCache := []
          report := [("c1", [(ptr0, ["origin"])])]
          revsCache := [("big.bin", ["c1"])] } := by
  rfl

/-- C2: a probe answered with HTTP 200 adds the pointer's hash to the presence
cache entry for that remote immediately — the loop continues with the updated
state before the next probe — and leaves the missing-reference report (and the
revision cache) untouched. -/
theorem c2_http200_caches_immediately :
    ∀ (git : GitRepo) (s : AuditState) (ptr : LfsPointer) (r : Remote),
      probeStep git s ptr r 200 =
        Except.ok
          { okCache := cacheAdd s.okCache r.name ptr.oid
            report := s.report
            revsCache := s.revsCache }
      ∧ ptr.oid ∈ cacheGet (cacheAdd s.okCache r.name ptr.oid) r.name
      ∧ ∀ (resp : LfsPointer → Remote → Except Unit Nat)
          (rest : List (LfsPointer × Remote)),
          resp ptr r = Except.ok 200 →
          ptr.oid ∉ cacheGet s.okCache r.name →
          probeLoop git resp none ((ptr, r) :: rest) s =
            (let o := probeLoop git resp none rest
              { okCache := cacheAdd s.okCache r.name ptr.oid
                report := s.report
                revsCache := s.revsCache };
             ⟨o.state, (ptr, r) :: o.probed, o.exit⟩) := by
  intro git s ptr r
  refine ⟨probeStep_200 git s ptr r, mem_cacheGet_cacheAdd_self s.okCache r.name ptr.oid,
    fun resp rest hresp hmiss => ?_⟩
  simp only [probeLoop, hresp, hmiss, probeStep_200, reduceIte, if_false]
  rfl

/-- Witness for C2: the spec scenario — pointer `abc123` probed once against
`origin` answering 200 — ends with cache `{"origin": ["abc123"]}`, an empty
report, one request issued, and a normal exit. -/
theorem c2_witness :
    probeLoop git0 resp200 none [(ptr0, origin0)] emptyAudit =
      ⟨⟨[("origin", ["abc123"])], [], []⟩, [(ptr0, origin0)], ExitKind.normal⟩ := by
  have h := (c2_http200_caches_immediately git0 emptyAudit ptr0 origin0).2.2
    resp200 [] rfl (by decide)
  rw [h]
  rfl

/-- C3: a probe answered with a status that is neither 200 nor 404 (e.g. 410)
takes the missing-report branch: for every commit found by `get_commits`
(history listing of the pointer's name, content-searched for the exact
`oid <type>:<hash>` string), the remote is appended under that commit's entry
for the pointer; the presence cache is untouched, and the revision listing is
computed once per name and reused (a second `get_commits` call with the
updated cache returns the same commits and leaves the cache unchanged). -/
theorem c3_other_status_reports_per_commit :
    ∀ (git : GitRepo) (s : AuditState) (ptr : LfsPointer) (r : Remote) (status : Nat),
      status ≠ 200 → status ≠ 404 →
      probeStep git s ptr r status = Except.ok (missingUpdate git s ptr r)
      ∧ (missingUpdate git s ptr r).okCache = s.okCache
      ∧ (∀ c ∈ (get_commits git s.revsCache ptr).1,
          r.name ∈ reportRemotes (missingUpdate git s ptr r).report c ptr)
      ∧ (missingUpdate git s ptr r).revsCache = (get_commits git s.revsCache ptr).2
      ∧ get_commits git (get_commits git s.revsCache ptr).2 ptr =
          get_commits git s.revsCache ptr := by
  intro git s ptr r status h200 _
  refine ⟨by simp [probeStep, h200], rfl, fun c hc => ?_, rfl,
    get_commits_idem git s.revsCache ptr⟩
  exact mem_reportRemotes_foldl _ _ _ _ _ hc

/-- Witness for C3 at status 410: the probe reports the pointer missing on
`origin` under the referencing commit `c1`. -/
theorem c3_witness :
    probeStep git0 emptyAudit ptr0 origin0 410 =
      Except.ok (missingUpdate git0 emptyAudit ptr0 origin0)
    ∧ "origin" ∈ reportRemotes (missingUpdate git0 emptyAudit ptr0 origin0).report
        "c1" ptr0 := by
  have h := c3_other_status_reports_per_commit git0 emptyAudit ptr0 origin0 410
    (by decide) (by decide)
  exact ⟨h.1, h.2.2.1 "c1" (by decide)⟩

/-- C4: a (pointer, remote) pair whose hash is already in the presence cache
for that remote is skipped entirely — no request is issued and the state is
exactly what the loop computes from the remaining pairs; every pair actually
probed was not in the cache the loop started from; and a second run from the
first run's final state issues zero verification requests when every pair's
hash was confirmed (is in the final cache) by the first run. -/
theorem c4_cache_hit_skips_and_second_run_idle :
    ∀ (git : GitRepo) (resp : LfsPointer → Remote → Except Unit Nat)
      (kb : Option Nat) (pairs : List (LfsPointer × Remote)) (s : AuditState),
      (∀ (ptr : LfsPointer) (r : Remote) (rest : List (LfsPointer × Remote)),
        ptr.oid ∈ cacheGet s.okCache r.name → kb ≠ some 0 →
        probeLoop git resp kb ((ptr, r) :: rest) s =
          probeLoop git resp (kb.map (fun n => n - 1)) rest s)
      ∧ (∀ p ∈ (probeLoop git resp kb pairs s).probed,
          p.1.oid ∉ cacheGet s.okCache p.2.name)
      ∧ ∀ (git2 : GitRepo) (resp2 : LfsPointer → Remote → Except Unit Nat)
          (kb2 : Option Nat) (pairs2 : List (LfsPointer × Remote)),
          (∀ p ∈ pairs2,
            p.1.oid ∈ cacheGet (probeLoop git resp kb pairs s).state.okCache p.2.name) →
          (probeLoop git2 resp2 kb2 pairs2
            (probeLoop git resp kb pairs s).state).probed = [] := by
  intro git resp kb pairs s
  refine ⟨fun ptr r rest hhit hkb => ?_,
    fun p hp => probeLoop_probed_not_cached git resp kb pairs s p hp,
    fun git2 resp2 kb2 pairs2 hconf => ?_⟩
  · simp [probeLoop, hkb, hhit]
  · rw [List.eq_nil_iff_forall_not_mem]
    intro p hp
    exact probeLoop_probed_not_cached git2 resp2 kb2 pairs2 _ p hp
      (hconf p (probeLoop_probed_subset git2 resp2 kb2 pairs2 _ p hp))

/-- Witness for C4: with `abc123` already cached for `origin`, probing the
single pair is the same as probing nothing; and a second run after a first
confirming run issues zero requests. -/
theorem c4_witness :
    probeLoop git0 resp200 none [(ptr0, origin0)] cachedAudit =
      probeLoop git0 resp200 none [] cachedAudit
    ∧ (probeLoop git0 resp200 none [(ptr0, origin0)]
        (probeLoop git0 resp200 none [(ptr0, origin0)] emptyAudit).state).probed = [] := by
  refine ⟨(c4_cache_hit_skips_and_second_run_idle git0 resp200 none [] cachedAudit).1
      ptr0 origin0 [] (by decide) (by decide), ?_⟩
  exact (c4_cache_hit_skips_and_second_run_idle git0 resp200 none [(ptr0, origin0)]
    emptyAudit).2.2 git0 resp200 none [(ptr0, origin0)] (by decide)

/-- C5: when the probe loop is interrupted by `KeyboardInterrupt` (delivered
before the `k`-th pair), the loop stops early (at most `k` requests were
issued), no exception propagates, and the `finally` block persists the
in-memory cache to disk — which still contains every hash that was in the
starting cache and every hash confirmed by a 200 response before the
interruption. -/
theorem c5_interrupt_persists_cache :
    ∀ (git : GitRepo) (resp : LfsPointer → Remote → Except Unit Nat) (k : Nat)
      (pairs : List (LfsPointer × Remote)) (s0 : AuditState),
      (probeLoop git resp (some k) pairs s0).exit = ExitKind.kbInterrupt →
      (runAudit git resp (some k) pairs s0).disk =
          some (probeLoop git resp (some k) pairs s0).state.okCache
      ∧ (runAudit git resp (some k) pairs s0).raised = false
      ∧ (probeLoop git resp (some k) pairs s0).probed.length ≤ k
      ∧ (∀ (r o : String), o ∈ cacheGet s0.okCache r →
          o ∈ cacheGet (probeLoop git resp (some k) pairs s0).state.okCache r)
      ∧ ∀ p ∈ (probeLoop git resp (some k) pairs s0).probed,
          resp p.1 p.2 = Except.ok 200 →
          p.1.oid ∈ cacheGet (probeLoop git resp (some k) pairs s0).state.okCache
            p.2.name := by
  intro git resp k pairs s0 hexit
  refine ⟨rfl, ?_, probeLoop_probed_le git resp k pairs s0,
    fun r o ho => probeLoop_cache_mono git resp (some k) pairs s0 r o ho,
    fun p hp h200 => probeLoop_probed_200_cached git resp (some k) pairs s0 p hp h200⟩
  simp [runAudit, exceptKB, hexit]

/-- Witness for C5: interrupting before the very first pair persists the
(empty) starting cache, swallows the interrupt, and issued zero requests. -/
theorem c5_witness :
    (probeLoop git0 resp200 (some 0) [(ptr0, origin0)] emptyAudit).exit =
        ExitKind.kbInterrupt
    ∧ (runAudit git0 resp200 (some 0) [(ptr0, origin0)] emptyAudit).disk =
        some (probeLoop git0 resp200 (some 0) [(ptr0, origin0)] emptyAudit).state.okCache
    ∧ (runAudit git0 resp200 (some 0) [(ptr0, origin0)] emptyAudit).raised = false := by
  have h := c5_interrupt_persists_cache git0 resp200 0 [(ptr0, origin0)]
    emptyAudit (by decide)
  exact ⟨by decide, h.1, h.2.1⟩

/-- C6 counterexample: a network error raised by the very first request makes
the loop exit with a non-`KeyboardInterrupt` exception, and the `finally`
block nevertheless writes the presence cache to disk — refuting the claim
that this exit path skips the cache flush. -/
theorem c6_counterexample_flush_runs_on_network_error :
    (probeLoop git0 respErr none [(ptr0, origin0)] emptyAudit).exit = ExitKind.pyError
    ∧ (runAudit git0 respErr none [(ptr0, origin0)] emptyAudit).disk = some []
    ∧ (runAudit git0 respErr none [(ptr0, origin0)] emptyAudit).raised = true := by
  decide

/-- C6 as amended: when an exception other than `KeyboardInterrupt` escapes
the probe loop, the persistence block still runs — the cache dump is a
`finally` clause, so the presence cache is written to disk exactly as on
operator cancel — and the exception then propagates. -/
theorem c6_amended_finally_flushes_on_any_error :
    ∀ (git : GitRepo) (resp : LfsPointer → Remote → Except Unit Nat)
      (kb : Option Nat) (pairs : List (LfsPointer × Remote)) (s0 : AuditState),
      (probeLoop git resp kb pairs s0).exit = ExitKind.pyError →
      (runAudit git resp kb pairs s0).disk =
          some (probeLoop git resp kb pairs s0).state.okCache
      ∧ (runAudit git resp kb pairs s0).raised = true := by
  intro git resp kb pairs s0 hexit
  exact ⟨rfl, by simp [runAudit, exceptKB, hexit]⟩

/-- Witness for the amended C6 at a concrete erroring run. -/
theorem c6_amended_witness :
    (runAudit git0 respErr none [(ptr0, origin0)] emptyAudit).disk =
        some (probeLoop git0 respErr none [(ptr0, origin0)] emptyAudit).state.okCache
    ∧ (runAudit git0 respErr none [(ptr0, origin0)] emptyAudit).raised = true :=
  c6_amended_finally_flushes_on_any_error git0 respErr none [(ptr0, origin0)]
    emptyAudit (by decide)

/-- Fetch oracle for the C7 failing input: repository `r1` fails both attempts
with a stderr whose last line is empty; repository `r2` succeeds cleanly. -/
def fetchOracle0 : String → Nat → FetchResult := fun repo _ =>
  if repo = "r1" then ⟨1, "", "Fetching origin\n\n"⟩ else ⟨0, "", ""⟩

/-- C7 (code bug): the retry policy itself holds, but the claim's "the batch
continues with the remaining repositories rather than aborting" fails.  With
`r1` failing twice with stderr `"Fetching origin\n\n"` (a trailing blank
line), exactly one failure block is printed for `r1` and then the stderr
inspection raises `IndexError` on the blank line, aborting the run before
`r2` is ever reported: the output contains no banner for `r2` and the abort
flag is set.  This contradicts the spec's explicit partial-failure tolerance,
so the code is the slip. -/
theorem c7_blank_stderr_line_aborts_batch :
    fetchRun ["r1", "r2"] fetchOracle0 =
      ([OutEvent.banner "r1", OutEvent.failBlock "r1" 1 "" "Fetching origin\n\n"],
        true) := by
  decide

/-- C8 (code bug): the stderr anomaly inspection is not total.  On a stderr
consisting of one blank line, `e.split()[0]` raises `IndexError` instead of
classifying the line, contradicting the claim that the inspection must not
fail on empty or whitespace-only lines. -/
theorem c8_blank_stderr_line_raises :
    stderrAnomalous (pySplitlines "\n") = Except.error () := by
  rfl

/-- C9: over a well-formed filesystem (entry paths pairwise distinct), the
enumerator yields exactly one entry per directory containing a `.git`
directory — no duplicates, no misses — with the working directory's own match
yielded as the absolute root and every other match as its relative parent
path. -/
theorem c9_enumerate_git_exact :
    ∀ fs : FileSys, (fs.map Prod.fst).Nodup →
      (enumerate_git fs).Nodup
      ∧ (RepoRef.absRoot ∈ enumerate_git fs ↔ ([".git"], true) ∈ fs)
      ∧ ∀ q : List String,
          (RepoRef.rel q ∈ enumerate_git fs ↔ q ≠ [] ∧ (q ++ [".git"], true) ∈ fs) := by
  intro fs hnd
  rw [enumerate_git_eq_filterMap]
  refine ⟨?_, ?_, ?_⟩
  · exact List.Nodup.filterMap
      (fun a a' b hb hb' => enumKey_inj a a' b hb hb') (List.Nodup.of_map _ hnd)
  · rw [List.mem_filterMap]
    constructor
    · rintro ⟨e, hmem, hkey⟩
      unfold enumKey at hkey
      by_cases hg : e.1.getLast? = some ".git"
      · by_cases hd : e.2
        · simp only [hg, if_true, hd, Option.some_inj] at hkey
          by_cases hnil : e.1.dropLast = []
          · have he1 : e.1 = [".git"] := by
              have := List.dropLast_append_getLast? ".git" hg
              rw [hnil] at this
              simpa using this.symm
            have he : e = ([".git"], true) := Prod.ext he1 hd
            exact he ▸ hmem
          · rw [if_neg hnil] at hkey
            cases hkey
        · simp [hd] at hkey
      · simp [hg] at hkey
    · intro hmem
      exact ⟨([".git"], true), hmem, rfl⟩
  · intro q
    rw [List.mem_filterMap]
    constructor
    · rintro ⟨e, hmem, hkey⟩
      unfold enumKey at hkey
      by_cases hg : e.1.getLast? = some ".git"
      · by_cases hd : e.2
        · simp only [hg, if_true, hd, Option.some_inj] at hkey
          by_cases hnil : e.1.dropLast = []
          · rw [if_pos hnil] at hkey
            cases hkey
          · rw [if_neg hnil] at hkey
            injection hkey with hq
            have hqne : q ≠ [] := by
              rw [← hq]
              exact hnil
            have he1 : e.1 = q ++ [".git"] := by
              rw [← hq]
              exact (List.dropLast_append_getLast? ".git" hg).symm
            have he : e = (q ++ [".git"], true) := Prod.ext he1 hd
            exact ⟨hqne, he ▸ hmem⟩
        · simp [hd] at hkey
      · simp [hg] at hkey
    · rintro ⟨hq, hmem⟩
      refine ⟨(q ++ [".git"], true), hmem, ?_⟩
      unfold enumKey
      simp only [List.getLast?_concat, if_true, List.dropLast_concat]
      rw [if_neg hq]

/-- Concrete filesystem for the C9 witness: the working directory is itself a
checkout, `a` is a checkout, and `b/.git` is a file (a submodule-style
gitlink), not a directory. -/
def fs0 : FileSys :=
  [(["a"], true), (["a", ".git"], true), ([".git"], true), (["b", ".git"], false)]

/-- Witness for C9 on `fs0`: no duplicates, the root is yielded absolutely,
and the relative matches are exactly the directories with a `.git` directory
child. -/
theorem c9_witness :
    (fs0.map Prod.fst).Nodup
    ∧ ((enumerate_git fs0).Nodup
        ∧ (RepoRef.absRoot ∈ enumerate_git fs0 ↔ ([".git"], true) ∈ fs0)
        ∧ ∀ q : List String,
            (RepoRef.rel q ∈ enumerate_git fs0 ↔ q ≠ [] ∧ (q ++ [".git"], true) ∈ fs0)) :=
  ⟨by decide, c9_enumerate_git_exact fs0 (by decide)⟩

end Misc
